import Mathlib

/-!
Shallow embedding of the qsound repository's bitstring-to-music pipeline
(`src/quantum_music.py` and `src/app.py`).  Measurement tokens are modelled as
`List Char`; Python dictionaries of token counts as association lists in
insertion order; the pseudo-random source as explicit streams of draws; Python
exceptions as `Option`/failure values.  Python's `hash` (randomized per process)
is modelled as an arbitrary function parameter.
-/

namespace QSound

/-- A character is a binary digit, as tested by `c in '01'` in the Python code. -/
def isBin (c : Char) : Bool := c = '0' || c = '1'

/-- Python `s.replace(' ', '')`: drop every space character (only ASCII space). -/
def removeSpaces (l : List Char) : List Char := l.filter (fun c => c != ' ')

/-- Python `s.replace('0x', '')`: delete every occurrence of the two-character
substring `0x`, scanning left to right, non-overlapping, without rescanning
the produced string. -/
def strip0x : List Char → List Char
  | [] => []
  | [c] => [c]
  | c1 :: c2 :: rest =>
    if c1 = '0' ∧ c2 = 'x' then strip0x rest
    else c1 :: strip0x (c2 :: rest)

/-- The conditional binary filter of `quantum_to_note` (quantum_music.py lines
153–155): if any character other than `0`/`1` remains, keep only `0`/`1`. -/
def binaryFilter (l : List Char) : List Char :=
  if l.all isBin then l else l.filter isBin

/-- The normalization performed at the top of `quantum_to_note`
(quantum_music.py lines 150–162): remove spaces, remove `0x` substrings,
filter to binary when needed, then truncate to 4 characters when longer,
or substitute `'0'` when empty (an `if`/`elif` pair in the source). -/
def normalize (t : List Char) : List Char :=
  let cleaned := binaryFilter (strip0x (removeSpaces t))
  if 4 < cleaned.length then cleaned.take 4
  else if cleaned.length = 0 then ['0']
  else cleaned

/-- Whitespace characters, for the spec's "strip all whitespace" (Python's
`str` whitespace set). -/
def wsChar (c : Char) : Bool :=
  c = ' ' || c = '\t' || c = '\n' || c = '\r' || c = '\x0b' || c = '\x0c'

/-- Modelled from the spec's §4.1 wording (steps 1–4): strip all whitespace and
a literal `0x` prefix substring, filter to binary if non-binary characters
remain, truncate to the first 4 characters, substitute `"0"` when empty. -/
def normalizeSpec (t : List Char) : List Char :=
  let s1 := t.filter (fun c => !wsChar c)
  let s2 := match s1 with
    | '0' :: 'x' :: rest => rest
    | _ => s1
  let s3 := if s2.all isBin then s2 else s2.filter isBin
  let s4 := if 4 < s3.length then s3.take 4 else s3
  if s4.length = 0 then ['0'] else s4

/-- Amended description of the code's normalization: remove space characters
(only ASCII space) and every occurrence of the substring `0x` anywhere in the
token (both characters removed), then filter to binary when needed, truncate
to the first 4 characters, substitute `'0'` when empty. -/
def normalizeAmended (t : List Char) : List Char :=
  let s1 := strip0x (t.filter (fun c => c != ' '))
  let s2 := if s1.all isBin then s1 else s1.filter isBin
  let s3 := if 4 < s2.length then s2.take 4 else s2
  if s3.length = 0 then ['0'] else s3

theorem truncDefault_eq (l : List Char) :
    (if 4 < l.length then l.take 4 else if l.length = 0 then ['0'] else l) =
    (let s3 := if 4 < l.length then l.take 4 else l
     if s3.length = 0 then ['0'] else s3) := by
  by_cases h4 : 4 < l.length
  · have htake : (l.take 4).length = 4 := by
      rw [List.length_take]; omega
    simp only [h4, if_true, htake]
    simp
  · by_cases h0 : l.length = 0
    · simp [h4, h0]
    · simp [h4, h0]

theorem strip0x_eq_self : ∀ l : List Char, 'x' ∉ l → strip0x l = l
  | [], _ => rfl
  | [_], _ => rfl
  | c1 :: c2 :: rest, h => by
    have hx2 : 'x' ∉ c2 :: rest := fun hm => h (List.mem_cons_of_mem _ hm)
    have hc2 : c2 ≠ 'x' := fun he => h (by simp [he])
    show (if c1 = '0' ∧ c2 = 'x' then strip0x rest
          else c1 :: strip0x (c2 :: rest)) = c1 :: c2 :: rest
    rw [if_neg (fun hand => hc2 hand.2)]
    exact congrArg (c1 :: ·) (strip0x_eq_self (c2 :: rest) hx2)

/-- C1 (counterexample): on the token `"110x01"` the code's normalization
removes the interior `0x` substring (both characters) and yields `"1101"`,
while the spec's algorithm (strip whitespace and a `0x` prefix, then filter
to binary, then truncate) yields `"1100"`. -/
theorem c1_cex : normalize "110x01".toList ≠ normalizeSpec "110x01".toList := by
  decide

/-- C1 (amended): for every input token, the normalization inside
`quantum_to_note` removes all space characters (ASCII space only) and every
occurrence of the literal substring `0x` anywhere in the token (removing both
characters, left to right, non-overlapping), then filters down to `0`/`1`
characters when any other character remains, then truncates to the first 4
characters when longer than 4, then substitutes the single character `'0'`
when empty. -/
theorem c1_amended (t : List Char) : normalize t = normalizeAmended t := by
  unfold normalize normalizeAmended removeSpaces binaryFilter
  exact truncDefault_eq _

/-- C8 (counterexample): the empty string consists solely of `0`/`1`
characters (vacuously) and has length at most 4, yet normalization maps it to
`"0"`, not to itself. -/
theorem c8_cex :
    ([] : List Char).all isBin = true ∧ ([] : List Char).length ≤ 4 ∧
    normalize [] ≠ [] := by
  decide

/-- C8 (amended): normalization is the identity on every nonempty string of at
most 4 characters that consists solely of the characters `0` and `1`. -/
theorem c8_amended (s : List Char) (hbin : s.all isBin = true)
    (h1 : 1 ≤ s.length) (h4 : s.length ≤ 4) : normalize s = s := by
  have hmem : ∀ c ∈ s, isBin c = true := List.all_eq_true.mp hbin
  have hsp : removeSpaces s = s := by
    apply List.filter_eq_self.mpr
    intro c hc
    have := hmem c hc
    simp only [isBin] at this
    rcases Bool.or_eq_true_iff.mp this with h | h
    · simp [decide_eq_true_eq.mp h]
    · simp [decide_eq_true_eq.mp h]
  have hx : 'x' ∉ s := by
    intro hxs
    have := hmem 'x' hxs
    simp [isBin] at this
  unfold normalize
  rw [hsp, strip0x_eq_self s hx]
  unfold binaryFilter
  rw [if_pos hbin, if_neg (by omega), if_neg (by omega)]

/-- C8 witness: the amended idempotence theorem at the concrete clean string
`"10"`. -/
theorem c8_witness : normalize ['1', '0'] = ['1', '0'] :=
  c8_amended ['1', '0'] (by decide) (by decide) (by decide)

/-- Value of a binary digit string, most significant digit first. -/
def binToNatAux : Nat → List Char → Nat
  | acc, [] => acc
  | acc, c :: rest => binToNatAux (2 * acc + (if c = '1' then 1 else 0)) rest

/-- Python `int(s, 2)`: succeeds exactly on nonempty strings of binary digits
(the forms actually produced by the pipeline), raising `ValueError` (`none`)
otherwise. -/
def parseBin (l : List Char) : Option Nat :=
  if l.isEmpty then none
  else if l.all isBin then some (binToNatAux 0 l) else none

/-- Table `self.major_scale` (quantum_music.py line 33). -/
def major_scale : List Nat := [0, 2, 4, 5, 7, 9, 11]

/-- Table `self.minor_scale` (quantum_music.py line 34). -/
def minor_scale : List Nat := [0, 2, 3, 5, 7, 8, 10]

/-- Table `self.chromatic_scale` (quantum_music.py line 35). -/
def chromatic_scale : List Nat := List.range 12

/-- Scale selection in `quantum_to_note` (lines 172–177). -/
def scaleIntervals (scale_type : String) : List Nat :=
  if scale_type = "major" then major_scale
  else if scale_type = "minor" then minor_scale
  else chromatic_scale

/-- The `try`/`except` computing `note_index` in `quantum_to_note` (lines
165–169): parse the normalized string base 2 and reduce mod 12, falling back
to `hash(clean_state) % 12` on a `ValueError`.  The Python `hash` is the
parameter `h`. -/
def noteIndex (h : List Char → Nat) (t : List Char) : Nat :=
  match parseBin (normalize t) with
  | some v => v % 12
  | none => h (normalize t) % 12

/-- The body of `quantum_to_note` after base-note resolution (lines 164–188),
producing the MIDI number `base_midi + semitone_offset`; the scale-table
lookup is modelled with `get?`, so an out-of-range index would be a failure. -/
def quantumToNoteMidi (h : List Char → Nat) (t : List Char) (baseMidi : Nat)
    (scale_type : String) : Option Nat :=
  let intervals := scaleIntervals scale_type
  match intervals.get? (noteIndex h t % intervals.length) with
  | some off => some (baseMidi + off)
  | none => none

/-- Pitch class of a natural note letter, per the standard 12-tone convention
used by music21 when parsing a letter+octave name. -/
def letterPc (c : Char) : Option Nat :=
  if c = 'C' then some 0
  else if c = 'D' then some 2
  else if c = 'E' then some 4
  else if c = 'F' then some 5
  else if c = 'G' then some 7
  else if c = 'A' then some 9
  else if c = 'B' then some 11
  else none

/-- Digits of a decimal numeral. -/
def decDigits : Nat → List Char → Option Nat
  | acc, [] => some acc
  | acc, c :: rest =>
    if c.isDigit then decDigits (10 * acc + (c.toNat - '0'.toNat)) rest
    else none

/-- Resolution `note.Note(base_note).pitch.midi` for a letter+octave base note string
such as `"C4"`: octave `o` of letter with pitch class `pc` has MIDI number
`12 * (o + 1) + pc` (music21 convention, middle C = `"C4"` = 60). -/
def parseBase (base : String) : Option Nat :=
  match base.toList with
  | [] => none
  | c :: rest =>
    match letterPc c, rest with
    | some pc, _ :: _ =>
      match decDigits 0 rest with
      | some oct => some (12 * (oct + 1) + pc)
      | none => none
    | _, _ => none

/-- Rendering `nameWithOctave` of a music21 note created from a MIDI number: music21
spells the black keys of an octave as C#, E-, F#, G#, B- (only natural notes
arise in the claims checked here). -/
def midiName (m : Nat) : String :=
  (["C", "C#", "D", "E-", "E", "F", "F#", "G", "G#", "A", "B-", "B"].getD (m % 12) "C")
    ++ toString ((m / 12 : Nat) - 1 : Int)

/-- The full `map_to_pitch` contract of spec §4.1, as implemented by
`quantum_to_note` (lines 136–194): normalize the token, map to an in-scale
semitone offset, add to the base note's MIDI number, and render the name. -/
def map_to_pitch (h : List Char → Nat) (token base scale_type : String) :
    Option String :=
  match parseBase base with
  | none => none
  | some b =>
    match quantumToNoteMidi h token.toList b scale_type with
    | none => none
    | some m => some (midiName m)

theorem binaryFilter_all (l : List Char) : (binaryFilter l).all isBin = true := by
  unfold binaryFilter
  split
  · assumption
  · exact List.all_eq_true.mpr fun a ha => (List.mem_filter.mp ha).2

theorem normalize_all (t : List Char) : (normalize t).all isBin = true := by
  have hb := binaryFilter_all (strip0x (removeSpaces t))
  simp only [normalize]
  split
  · exact List.all_eq_true.mpr fun c hc =>
      List.all_eq_true.mp hb c (List.take_subset _ _ hc)
  · split
    · decide
    · exact hb

theorem normalize_ne_nil (t : List Char) : normalize t ≠ [] := by
  simp only [normalize]
  split
  · intro hnil
    have hlen := congrArg List.length hnil
    rw [List.length_take] at hlen
    simp only [List.length_nil] at hlen
    omega
  · split
    · simp
    · next h0 =>
      intro hnil
      exact h0 (by rw [hnil]; rfl)

theorem parseBin_normalize (t : List Char) :
    parseBin (normalize t) = some (binToNatAux 0 (normalize t)) := by
  unfold parseBin
  rw [if_neg, if_pos (normalize_all t)]
  simp [List.isEmpty_iff, normalize_ne_nil t]

theorem scaleIntervals_length_pos (st : String) : 0 < (scaleIntervals st).length := by
  unfold scaleIntervals
  split
  · decide
  · split
    · decide
    · decide

theorem scaleIntervals_lt_12 (st : String) : ∀ off ∈ scaleIntervals st, off < 12 := by
  unfold scaleIntervals
  split
  · decide
  · split
    · decide
    · decide

theorem noteIndex_hash_irrel (h h' : List Char → Nat) (t : List Char) :
    noteIndex h t = noteIndex h' t := by
  unfold noteIndex
  rw [parseBin_normalize]

theorem quantumToNoteMidi_spec (h : List Char → Nat) (t : List Char) (b : Nat)
    (st : String) :
    ∃ off ∈ scaleIntervals st, quantumToNoteMidi h t b st = some (b + off) := by
  simp only [quantumToNoteMidi]
  have hlen := scaleIntervals_length_pos st
  have hlt : noteIndex h t % (scaleIntervals st).length < (scaleIntervals st).length :=
    Nat.mod_lt _ hlen
  refine ⟨(scaleIntervals st).get ⟨_, hlt⟩, List.get_mem _ _ _, ?_⟩
  rw [List.get?_eq_get hlt]

/-- C2: for every token, base pitch given as a letter+octave string, and scale
name, the mapper returns a result (no exception), the result's semitone offset
from the base is one of the selected scale's offsets (each already reduced mod
12), the result does not depend on the hash function, i.e. the parse-failure
hash fallback is unreachable: the normalized string always parses base 2. -/
theorem c2_safety (h h' : List Char → Nat) (token base scale_type : String)
    (b : Nat) (hb : parseBase base = some b) :
    ∃ m, quantumToNoteMidi h token.toList b scale_type = some m ∧
      map_to_pitch h token base scale_type = some (midiName m) ∧
      map_to_pitch h' token base scale_type = map_to_pitch h token base scale_type ∧
      (∃ off ∈ scaleIntervals scale_type, m = b + off ∧ off % 12 = off) ∧
      parseBin (normalize token.toList) ≠ none := by
  obtain ⟨off, hoff_mem, hoff⟩ := quantumToNoteMidi_spec h token.toList b scale_type
  refine ⟨b + off, hoff, ?_, ?_, ⟨off, hoff_mem, rfl, ?_⟩, ?_⟩
  · unfold map_to_pitch
    rw [hb]
    show (match quantumToNoteMidi h token.toList b scale_type with
          | none => none
          | some m => some (midiName m)) = some (midiName (b + off))
    rw [hoff]
  · have hirrel : quantumToNoteMidi h' token.toList b scale_type =
        quantumToNoteMidi h token.toList b scale_type := by
      simp only [quantumToNoteMidi, noteIndex_hash_irrel h' h]
    unfold map_to_pitch
    rw [hb]
    show (match quantumToNoteMidi h' token.toList b scale_type with
          | none => none
          | some m => some (midiName m)) =
        (match quantumToNoteMidi h token.toList b scale_type with
          | none => none
          | some m => some (midiName m))
    rw [hirrel]
  · exact Nat.mod_eq_of_lt (scaleIntervals_lt_12 scale_type off hoff_mem)
  · rw [parseBin_normalize]
    simp

/-- C2 witness: the safety theorem at a token with zero valid binary
characters, base `"C4"`, major scale, with two distinct hash functions. -/
theorem c2_witness :
    ∃ m, quantumToNoteMidi (fun _ => 0) "zz".toList 60 "major" = some m ∧
      map_to_pitch (fun _ => 0) "zz" "C4" "major" = some (midiName m) ∧
      map_to_pitch (fun _ => 1) "zz" "C4" "major" =
        map_to_pitch (fun _ => 0) "zz" "C4" "major" ∧
      (∃ off ∈ scaleIntervals "major", m = 60 + off ∧ off % 12 = off) ∧
      parseBin (normalize "zz".toList) ≠ none :=
  c2_safety (fun _ => 0) (fun _ => 1) "zz" "C4" "major" 60 rfl

/-- C3: the two concrete spec scenarios: `map_to_pitch("00000000","C4","major")`
returns `"C4"` (offset 0), and `map_to_pitch("0010","C4","major")` returns
`"E4"` (index 2, scale step 2, semitone offset 4), for any hash function. -/
theorem c3_scenarios (h : List Char → Nat) :
    map_to_pitch h "00000000" "C4" "major" = some "C4" ∧
    map_to_pitch h "0010" "C4" "major" = some "E4" :=
  ⟨rfl, rfl⟩

/-- Expansion of the measurement counts mapping into a flat list, repeating
each token by its count in insertion order (quantum_music.py lines 216–219). -/
def expandCounts (counts : List (List Char × Nat)) : List (List Char) :=
  counts.bind (fun p => List.replicate p.2 p.1)

/-- Python `format(v, '08b')`-style bit pattern: the `w`-bit binary string of `v`,
most significant bit first. -/
def toBits (w : Nat) (v : Nat) : List Char :=
  (List.range w).map (fun i => if v / 2 ^ (w - 1 - i) % 2 = 1 then '1' else '0')

/-- One padding draw of the `while` loop (quantum_music.py lines 223–229):
a uniformly random existing key when the counts mapping is nonempty
(`random.choice`, modelled by the raw draw `r` reduced into the key list),
otherwise a uniformly random 8-bit pattern (`random.randint(0, 255)`). -/
def padNext (counts : List (List Char × Nat)) (r : Nat) : List Char :=
  if counts.isEmpty then toBits 8 (r % 256)
  else (counts.map Prod.fst).getD (r % (counts.map Prod.fst).length) ['0']

/-- The body of the padding `while` loop of `generate_melody` (lines 222–229),
with explicit fuel: while fewer than `num_notes` measurements, append one
padding draw; `rnd` is the stream of raw random draws, indexed by the current
length.  Each iteration grows the list by one, so `num_notes - acc.length`
units of fuel make the fueled loop exit exactly when the `while` loop does. -/
def padLoop (counts : List (List Char × Nat)) (rnd : Nat → Nat)
    (num_notes : Nat) : Nat → List (List Char) → List (List Char)
  | 0, acc => acc
  | fuel + 1, acc =>
    if acc.length < num_notes then
      padLoop counts rnd num_notes fuel (acc ++ [padNext counts (rnd acc.length)])
    else acc

/-- The padding `while` loop, entered with just enough fuel. -/
def padMeasurements (counts : List (List Char × Nat)) (rnd : Nat → Nat)
    (num_notes : Nat) (acc : List (List Char)) : List (List Char) :=
  padLoop counts rnd num_notes (num_notes - acc.length) acc

/-- The measurement list actually consumed: expanded counts, padded, then
truncated to exactly `num_notes` (line 232). -/
def allMeasurements (counts : List (List Char × Nat)) (rnd : Nat → Nat)
    (num_notes : Nat) : List (List Char) :=
  (padMeasurements counts rnd num_notes (expandCounts counts)).take num_notes

/-- A note event: a pitched note (MIDI number) or a rest, with a quarterLength
duration. -/
inductive NoteEvent where
  | note (pitch : Nat) (dur : ℚ)
  | rest (dur : ℚ)
deriving DecidableEq

/-- Duration of a note event (`duration.quarterLength`). -/
def NoteEvent.duration : NoteEvent → ℚ
  | NoteEvent.note _ d => d
  | NoteEvent.rest d => d

/-- Whether an event is a rest (the `isinstance(n, note.Note)` distinction). -/
def NoteEvent.isRest : NoteEvent → Bool
  | NoteEvent.note _ _ => false
  | NoteEvent.rest _ => true

/-- Function `generate_melody` (quantum_music.py lines 196–247): expand the sampled
counts, pad/truncate to exactly `num_notes` measurements, and map each through
`quantum_to_note` into a pitched eighth-note event (quarterLength 0.5). -/
def generate_melody (h : List Char → Nat) (counts : List (List Char × Nat))
    (rnd : Nat → Nat) (num_notes : Nat) (baseMidi : Nat) (scale_type : String) :
    Option (List NoteEvent) :=
  (allMeasurements counts rnd num_notes).mapM
    (fun m => (quantumToNoteMidi h m baseMidi scale_type).map
      (fun p => NoteEvent.note p (1 / 2 : ℚ)))

theorem padLoop_length (counts : List (List Char × Nat)) (rnd : Nat → Nat)
    (num_notes : Nat) :
    ∀ fuel acc, num_notes - acc.length ≤ fuel →
      (padLoop counts rnd num_notes fuel acc).length = max num_notes acc.length := by
  intro fuel
  induction fuel with
  | zero =>
    intro acc hf
    unfold padLoop
    omega
  | succ k ih =>
    intro acc hf
    by_cases hlt : acc.length < num_notes
    · rw [padLoop, if_pos hlt,
        ih _ (by simp only [List.length_append, List.length_cons, List.length_nil]; omega)]
      simp only [List.length_append, List.length_cons, List.length_nil]
      omega
    · rw [padLoop, if_neg hlt]
      omega

theorem padMeasurements_length (counts : List (List Char × Nat)) (rnd : Nat → Nat)
    (num_notes : Nat) (acc : List (List Char)) :
    (padMeasurements counts rnd num_notes acc).length = max num_notes acc.length :=
  padLoop_length counts rnd num_notes _ acc le_rfl

theorem padNext_spec (counts : List (List Char × Nat)) (r : Nat) :
    (counts = [] ∧ (padNext counts r).length = 8 ∧ (padNext counts r).all isBin = true) ∨
    (∃ p ∈ counts, padNext counts r = p.1) := by
  unfold padNext
  by_cases hc : counts.isEmpty
  · left
    rw [if_pos hc]
    refine ⟨List.isEmpty_iff.mp hc, ?_, ?_⟩
    · simp [toBits]
    · apply List.all_eq_true.mpr
      intro c hc'
      unfold toBits at hc'
      obtain ⟨i, _, hi⟩ := List.mem_map.mp hc'
      by_cases hbit : r % 256 / 2 ^ (8 - 1 - i) % 2 = 1
      · rw [if_pos hbit] at hi
        simp [← hi, isBin]
      · rw [if_neg hbit] at hi
        simp [← hi, isBin]
  · right
    rw [if_neg hc]
    have hne : counts ≠ [] := fun hnil => hc (by rw [hnil]; rfl)
    have hklen : 0 < (counts.map Prod.fst).length := by
      rw [List.length_map]
      exact List.length_pos.mpr hne
    have hlt : r % (counts.map Prod.fst).length < (counts.map Prod.fst).length :=
      Nat.mod_lt _ hklen
    rw [List.getD_eq_get _ _ hlt]
    have hmem := List.get_mem (counts.map Prod.fst) _ hlt
    obtain ⟨p, hp, hpe⟩ := List.mem_map.mp hmem
    exact ⟨p, hp, hpe.symm⟩

theorem padLoop_mem (counts : List (List Char × Nat)) (rnd : Nat → Nat)
    (num_notes : Nat) :
    ∀ fuel acc, ∀ m ∈ padLoop counts rnd num_notes fuel acc,
      m ∈ acc ∨ (counts = [] ∧ m.length = 8 ∧ m.all isBin = true) ∨
        (∃ p ∈ counts, m = p.1) := by
  intro fuel
  induction fuel with
  | zero =>
    intro acc m hm
    exact Or.inl hm
  | succ k ih =>
    intro acc m hm
    by_cases hlt : acc.length < num_notes
    · rw [padLoop, if_pos hlt] at hm
      rcases ih _ m hm with hacc | hrest
      · rcases List.mem_append.mp hacc with h1 | h2
        · exact Or.inl h1
        · have : m = padNext counts (rnd acc.length) := by
            simpa using h2
          rcases padNext_spec counts (rnd acc.length) with ⟨h0, h8, hb⟩ | ⟨p, hp, he⟩
          · exact Or.inr (Or.inl ⟨h0, this ▸ h8, this ▸ hb⟩)
          · exact Or.inr (Or.inr ⟨p, hp, this.trans he⟩)
      · exact Or.inr hrest
    · rw [padLoop, if_neg hlt] at hm
      exact Or.inl hm

theorem allMeasurements_length (counts : List (List Char × Nat)) (rnd : Nat → Nat)
    (n : Nat) : (allMeasurements counts rnd n).length = n := by
  unfold allMeasurements
  rw [List.length_take, padMeasurements_length]
  omega

theorem expandCounts_mem (counts : List (List Char × Nat)) :
    ∀ m ∈ expandCounts counts, ∃ p ∈ counts, m = p.1 := by
  intro m hm
  obtain ⟨p, hp, hrep⟩ := List.mem_bind.mp hm
  exact ⟨p, hp, List.eq_of_mem_replicate hrep⟩

theorem allMeasurements_mem (counts : List (List Char × Nat)) (rnd : Nat → Nat)
    (n : Nat) :
    ∀ m ∈ allMeasurements counts rnd n,
      (∃ p ∈ counts, m = p.1) ∨ (counts = [] ∧ m.length = 8 ∧ m.all isBin = true) := by
  intro m hm
  have hm' := List.take_subset n _ hm
  rcases padLoop_mem counts rnd n _ _ m hm' with hacc | hpad | hkey
  · exact Or.inl (expandCounts_mem counts m hacc)
  · exact Or.inr hpad
  · exact Or.inl hkey

theorem mapM_option_length {α β : Type} (f : α → Option β) :
    ∀ l : List α, (∀ a ∈ l, (f a).isSome = true) →
      ∃ l', l.mapM f = some l' ∧ l'.length = l.length := by
  intro l
  induction l with
  | nil => exact fun _ => ⟨[], rfl, rfl⟩
  | cons a t ih =>
    intro hall
    obtain ⟨b, hb⟩ := Option.isSome_iff_exists.mp (hall a (List.mem_cons_self a t))
    obtain ⟨l', hl', hlen⟩ := ih (fun x hx => hall x (List.mem_cons_of_mem _ hx))
    refine ⟨b :: l', ?_, by simp [hlen]⟩
    rw [List.mapM_cons, hb, hl']
    rfl

theorem generate_melody_total (h : List Char → Nat) (counts : List (List Char × Nat))
    (rnd : Nat → Nat) (num_notes baseMidi : Nat) (scale_type : String) :
    ∃ evs, generate_melody h counts rnd num_notes baseMidi scale_type = some evs ∧
      evs.length = num_notes := by
  obtain ⟨l', hmap, hlen⟩ := mapM_option_length
    (fun m => (quantumToNoteMidi h m baseMidi scale_type).map
      (fun p => NoteEvent.note p (1 / 2 : ℚ)))
    (allMeasurements counts rnd num_notes)
    (fun m _ => by
      obtain ⟨off, _, hoff⟩ := quantumToNoteMidi_spec h m baseMidi scale_type
      simp [hoff])
  exact ⟨l', hmap, by rw [hlen, allMeasurements_length]⟩

/-- C4: for every requested count and every token-to-count mapping from the
sampling source — including mappings whose expanded total is smaller than the
count and the empty mapping — `generate_melody` produces exactly `count`
pitched note events; every measurement consumed is one of the observed tokens,
or (exactly when the source returned zero tokens) a random 8-bit pattern. -/
theorem c4_sequence_assembly (h : List Char → Nat) (counts : List (List Char × Nat))
    (rnd : Nat → Nat) (num_notes baseMidi : Nat) (scale_type : String) :
    (∃ evs, generate_melody h counts rnd num_notes baseMidi scale_type = some evs ∧
      evs.length = num_notes) ∧
    (∀ m ∈ allMeasurements counts rnd num_notes,
      (∃ p ∈ counts, m = p.1) ∨ (counts = [] ∧ m.length = 8 ∧ m.all isBin = true)) :=
  ⟨generate_melody_total h counts rnd num_notes baseMidi scale_type,
    allMeasurements_mem counts rnd num_notes⟩

/-- C4 witness: the assembly theorem at a concrete three-shot counts mapping,
discharging the measurement-membership hypothesis at the observed token. -/
theorem c4_witness :
    (∃ evs, generate_melody (fun _ => 0) [(['0'], 3)] (fun _ => 0) 3 60 "major" =
        some evs ∧ evs.length = 3) ∧
    ((∃ p ∈ [(['0'], 3)], ['0'] = p.1) ∨
      ([(['0'], 3)] = ([] : List (List Char × Nat)) ∧ (['0'] : List Char).length = 8 ∧
        (['0'] : List Char).all isBin = true)) :=
  ⟨(c4_sequence_assembly (fun _ => 0) [(['0'], 3)] (fun _ => 0) 3 60 "major").1,
    (c4_sequence_assembly (fun _ => 0) [(['0'], 3)] (fun _ => 0) 3 60 "major").2
      ['0'] (by decide)⟩

/-- Function `generate_rhythm` (quantum_music.py lines 249–268): each slot is an
independent draw (`random.random() < 0.7`, modelled by the Boolean stream
`draws`); if every slot came out false, one random index
(`random.randrange(num_beats)`, which raises `ValueError` on an empty range,
modelled by `none`) is forced true. -/
def generate_rhythm (draws : Nat → Bool) (fidx : Nat) (num_beats : Nat) :
    Option (List Bool) :=
  let rhythm := (List.range num_beats).map draws
  if rhythm.count true = 0 then
    if num_beats = 0 then none
    else some (rhythm.set (fidx % num_beats) true)
  else some rhythm

theorem generate_rhythm_total (draws : Nat → Bool) (fidx num_beats : Nat)
    (hpos : 1 ≤ num_beats) :
    ∃ r, generate_rhythm draws fidx num_beats = some r ∧
      r.length = num_beats ∧ true ∈ r := by
  simp only [generate_rhythm]
  by_cases hz : ((List.range num_beats).map draws).count true = 0
  · rw [if_pos hz, if_neg (by omega)]
    have hlt : fidx % num_beats < ((List.range num_beats).map draws).length := by
      rw [List.length_map, List.length_range]
      exact Nat.mod_lt _ (by omega)
    refine ⟨_, rfl, by simp, ?_⟩
    have hget := List.get?_set_eq_of_lt true (l := (List.range num_beats).map draws) hlt
    exact List.mem_iff_get?.mpr ⟨_, hget⟩
  · rw [if_neg hz]
    refine ⟨_, rfl, by simp, ?_⟩
    exact List.count_pos_iff_mem.mp (Nat.pos_of_ne_zero hz)

/-- C5: for every requested length ≥ 1 and every sequence of random draws,
`generate_rhythm` returns a Boolean sequence of exactly that length containing
at least one true entry (forcing one random index true when all slots came out
false). -/
theorem c5_rhythm_gate (draws : Nat → Bool) (fidx num_beats : Nat)
    (hpos : 1 ≤ num_beats) :
    ∃ r, generate_rhythm draws fidx num_beats = some r ∧
      r.length = num_beats ∧ true ∈ r :=
  generate_rhythm_total draws fidx num_beats hpos

/-- C5 witness: the rhythm-gate theorem at length 2 with all draws false (the
forced-index path). -/
theorem c5_witness :
    ∃ r, generate_rhythm (fun _ => false) 0 2 = some r ∧
      r.length = 2 ∧ true ∈ r :=
  c5_rhythm_gate (fun _ => false) 0 2 (by decide)

/-- The per-index rhythm masking (quantum_music.py lines 331–336, likewise
app.py lines 62–70): when the gate is false and the event is a pitched note it
becomes a rest of the same duration; otherwise it is unchanged. -/
def maskEvent : NoteEvent → Bool → NoteEvent
  | NoteEvent.note p d, g => if g then NoteEvent.note p d else NoteEvent.rest d
  | NoteEvent.rest d, _ => NoteEvent.rest d

/-- The rhythm-overlay loop: combine events with the gate positionally. -/
def applyRhythm (events : List NoteEvent) (gate : List Bool) : List NoteEvent :=
  (events.zip gate).map (fun p => maskEvent p.1 p.2)

theorem applyRhythm_get? :
    ∀ (events : List NoteEvent) (gate : List Bool) (i : Nat),
      i < events.length → i < gate.length →
      (applyRhythm events gate).get? i =
        some (maskEvent (events.getD i (NoteEvent.rest 0)) (gate.getD i false))
  | [], _, _, h1, _ => absurd h1 (by simp)
  | _ :: _, [], _, _, h2 => absurd h2 (by simp)
  | e :: _, g :: _, 0, _, _ => rfl
  | e :: es, g :: gs, i + 1, h1, h2 => by
    have ih := applyRhythm_get? es gs i (by simpa using h1) (by simpa using h2)
    simpa [applyRhythm, List.zip_cons_cons] using ih

theorem mask_true_or_rest (e : NoteEvent) (g : Bool)
    (hor : g = true ∨ e.isRest = true) : maskEvent e g = e := by
  cases e with
  | note p d =>
    rcases hor with hg | hr
    · rw [hg]; rfl
    · exact absurd hr (by simp [NoteEvent.isRest])
  | rest d => rfl

theorem mask_false_note (e : NoteEvent) (hnr : e.isRest = false) :
    maskEvent e false = NoteEvent.rest e.duration := by
  cases e with
  | note p d => rfl
  | rest d => exact absurd hnr (by simp [NoteEvent.isRest])

/-- C6: applying a rhythm gate of the same length to a note sequence preserves
the sequence length and the order of events, and, at every index, leaves the
event untouched (same pitch and duration) when the gate is true or the event
is already a rest, and replaces a pitched note by a rest of exactly the
original duration when the gate is false. -/
theorem c6_overlay (events : List NoteEvent) (gate : List Bool)
    (hlen : events.length = gate.length) :
    (applyRhythm events gate).length = events.length ∧
    ∀ i e g, events.get? i = some e → gate.get? i = some g →
      ((g = true ∨ e.isRest = true) → (applyRhythm events gate).get? i = some e) ∧
      (g = false → e.isRest = false →
        (applyRhythm events gate).get? i = some (NoteEvent.rest e.duration)) := by
  constructor
  · simp [applyRhythm, List.length_zip, hlen]
  · intro i e g he hg
    have hi1 : i < events.length := by
      by_contra hge
      rw [List.get?_eq_none.mpr (by omega)] at he
      exact Option.noConfusion he
    have hi2 : i < gate.length := by omega
    have hget := applyRhythm_get? events gate i hi1 hi2
    have hDe : events.getD i (NoteEvent.rest 0) = e := by
      rw [List.getD_eq_get?, he]; rfl
    have hDg : gate.getD i false = g := by
      rw [List.getD_eq_get?, hg]; rfl
    rw [hDe, hDg] at hget
    constructor
    · intro hor
      rw [hget, mask_true_or_rest e g hor]
    · intro hgf hnr
      rw [hget, hgf, mask_false_note e hnr]

/-- C6 witness: the overlay theorem at a concrete two-event sequence and gate
of equal length, with the index-wise hypotheses discharged at index 0 (a
pitched note masked by a false gate slot). -/
theorem c6_witness :
    (applyRhythm [NoteEvent.note 60 (1 / 2 : ℚ), NoteEvent.rest (1 / 2 : ℚ)]
        [false, true]).length = 2 ∧
    (applyRhythm [NoteEvent.note 60 (1 / 2 : ℚ), NoteEvent.rest (1 / 2 : ℚ)]
        [false, true]).get? 0 = some (NoteEvent.rest (1 / 2 : ℚ)) :=
  ⟨(c6_overlay [NoteEvent.note 60 (1 / 2 : ℚ), NoteEvent.rest (1 / 2 : ℚ)]
      [false, true] (by decide)).1,
    ((c6_overlay [NoteEvent.note 60 (1 / 2 : ℚ), NoteEvent.rest (1 / 2 : ℚ)]
      [false, true] (by decide)).2 0 (NoteEvent.note 60 (1 / 2 : ℚ)) false
      rfl rfl).2 rfl rfl⟩

/-- The roman-numeral chord table `major_chords` (quantum_music.py line 285). -/
def major_chords : List String := ["I", "ii", "iii", "IV", "V", "vi", "vii°"]

/-- The cleaned state computed inside `generate_harmony` (lines 291–293): the
same space/`0x` stripping and binary filter as `quantum_to_note`, with no
4-character truncation and no empty-string substitution. -/
def harmonyCleanState (t : List Char) : List Char :=
  binaryFilter (strip0x (removeSpaces t))

/-- The chord index of `generate_harmony` (lines 296–302): parse the cleaned
state base 2 and reduce modulo the 7-entry table when nonempty; fall back to
`hash(str(state))` (of the original token) modulo the table length when the
cleaned state is empty or unparsable. -/
def harmonyChordIndex (h : List Char → Nat) (t : List Char) : Nat :=
  let clean := harmonyCleanState t
  if 0 < clean.length then
    match parseBin clean with
    | some v => v % major_chords.length
    | none => h t % major_chords.length
  else h t % major_chords.length

/-- Modelled from the claim: the chord index produced by the `map_to_pitch`
normalize-to-index procedure of §4.1 (whitespace/`0x` strip, binary filter,
4-character truncation, empty-string `'0'` fallback, base-2 parse), reduced
into the 7-entry roman-numeral table. -/
def claimedChordIndex (t : List Char) : Nat :=
  binToNatAux 0 (normalize t) % major_chords.length

/-- Lexicographic string comparison, as Python `sorted` on the token keys. -/
def lexLe (a b : List Char) : Bool := decide (a ≤ b)

/-- Function `generate_harmony` (quantum_music.py lines 270–306): sort the observed
token keys lexicographically, keep the first `num_chords`, and map each
through the chord index into the roman-numeral table (the index is always in
range because it is reduced modulo the table length). -/
def generate_harmony (h : List Char → Nat) (counts : List (List Char × Nat))
    (num_chords : Nat) : List String :=
  (((counts.map Prod.fst).mergeSort lexLe).take num_chords).map
    (fun st => major_chords.getD (harmonyChordIndex h st) "")

theorem lexLe_trans (a b c : List Char) (h1 : lexLe a b = true)
    (h2 : lexLe b c = true) : lexLe a c = true :=
  decide_eq_true (le_trans (of_decide_eq_true h1) (of_decide_eq_true h2))

theorem lexLe_total (a b : List Char) : (lexLe a b || lexLe b a) = true := by
  unfold lexLe
  rcases le_total a b with h | h
  · simp [h]
  · simp [h]

theorem harmonyCleanState_all (t : List Char) :
    (harmonyCleanState t).all isBin = true :=
  binaryFilter_all (strip0x (removeSpaces t))

theorem parseBin_harmonyCleanState (t : List Char)
    (hne : 0 < (harmonyCleanState t).length) :
    parseBin (harmonyCleanState t) = some (binToNatAux 0 (harmonyCleanState t)) := by
  unfold parseBin
  rw [if_neg, if_pos (harmonyCleanState_all t)]
  intro he
  rw [List.isEmpty_iff] at he
  rw [he] at hne
  exact absurd hne (by simp)

/-- C7 (counterexample): on the 5-character token `"11111"`,
`generate_harmony` parses the full untruncated cleaned string (value 31, chord
index 31 % 7 = 3), while the `map_to_pitch` normalize-to-index procedure
truncates to 4 characters first (value 15, chord index 15 % 7 = 1). -/
theorem c7_cex :
    harmonyChordIndex (fun _ => 0) "11111".toList ≠
      claimedChordIndex "11111".toList := by
  decide

/-- C7 (amended): the harmony mode shares `map_to_pitch`'s space/`0x` strip
and binary filter but applies neither the 4-character truncation nor the
empty-string `'0'` fallback: for every token whose cleaned state is nonempty
the chord index is the full base-2 value reduced modulo the 7-entry table,
independent of the hash function, and it agrees with the §4.1
normalize-to-index procedure exactly when the cleaned state is also at most 4
characters long; tokens are processed in lexicographically sorted order,
keeping the first `num_chords`. -/
theorem c7_harmony (h h' : List Char → Nat) (t : List Char)
    (counts : List (List Char × Nat)) (num_chords : Nat)
    (hne : 0 < (harmonyCleanState t).length) :
    harmonyChordIndex h t =
      binToNatAux 0 (harmonyCleanState t) % major_chords.length ∧
    harmonyChordIndex h' t = harmonyChordIndex h t ∧
    ((harmonyCleanState t).length ≤ 4 →
      harmonyChordIndex h t = claimedChordIndex t) ∧
    List.Pairwise (fun a b => lexLe a b = true)
      (((counts.map Prod.fst).mergeSort lexLe).take num_chords) ∧
    generate_harmony h counts num_chords =
      (((counts.map Prod.fst).mergeSort lexLe).take num_chords).map
        (fun st => major_chords.getD (harmonyChordIndex h st) "") := by
  have hidx : ∀ g : List Char → Nat, harmonyChordIndex g t =
      binToNatAux 0 (harmonyCleanState t) % major_chords.length := by
    intro g
    unfold harmonyChordIndex
    rw [if_pos hne, parseBin_harmonyCleanState t hne]
  refine ⟨hidx h, (hidx h').trans (hidx h).symm, ?_, ?_, rfl⟩
  · intro h4
    rw [hidx h]
    unfold claimedChordIndex normalize
    unfold harmonyCleanState at hne h4 ⊢
    rw [if_neg (by omega), if_neg (by omega)]
  · exact List.Pairwise.sublist (List.take_sublist _ _)
      (List.sorted_mergeSort lexLe_trans lexLe_total (counts.map Prod.fst))

/-- C7 witness: the amended harmony theorem at the nonempty token `"1"`. -/
theorem c7_witness :
    harmonyChordIndex (fun _ => 0) ['1'] =
      binToNatAux 0 (harmonyCleanState ['1']) % major_chords.length :=
  (c7_harmony (fun _ => 0) (fun _ => 0) ['1'] [] 0 (by decide)).1

/-- One entry of the success JSON's notes array (app.py lines 90–113):
either a pitch name or the literal marker `"Rest"`, with the quarterLength. -/
structure NoteInfo where
  note : String
  duration : ℚ
deriving DecidableEq

/-- The JSON response of the `/api/generate` handler: HTTP status, the
`success` flag, and the optional `error` / `file` / `notes` fields. -/
structure ApiResponse where
  status : Nat
  success : Bool
  error : Option String
  file : Option String
  notes : Option (List NoteInfo)
deriving DecidableEq

/-- The `/api/generate` boundary (app.py lines 24–134): the whole body runs in
one `try`; a successful pipeline yields `{success: true, file, notes}` with
status 200, and any exception raised anywhere inside yields
`{success: false, error: str(e)}` with status 500 and no file or notes
fields.  The pipeline outcome is the `Except` argument. -/
def generate_music_route (pipeline : Except String (String × List NoteInfo)) :
    ApiResponse :=
  match pipeline with
  | Except.ok p => ⟨200, true, none, some p.1, some p.2⟩
  | Except.error e => ⟨500, false, some e, none, none⟩

/-- C9: any exception during generation makes the handler return
`{success: false, error}` with status 500 and no file or notes fields; a
successful pipeline returns `{success: true, file, notes}`; every response is
exactly one of the two — no retry and no partial success. -/
theorem c9_error_handling (pipeline : Except String (String × List NoteInfo)) :
    (∀ e, pipeline = Except.error e →
      generate_music_route pipeline = ⟨500, false, some e, none, none⟩) ∧
    (∀ f ns, pipeline = Except.ok (f, ns) →
      generate_music_route pipeline = ⟨200, true, none, some f, some ns⟩) ∧
    (((generate_music_route pipeline).success = true ∧
        (generate_music_route pipeline).status = 200 ∧
        (generate_music_route pipeline).error = none ∧
        (generate_music_route pipeline).file.isSome = true ∧
        (generate_music_route pipeline).notes.isSome = true) ∨
      ((generate_music_route pipeline).success = false ∧
        (generate_music_route pipeline).status = 500 ∧
        (generate_music_route pipeline).error.isSome = true ∧
        (generate_music_route pipeline).file = none ∧
        (generate_music_route pipeline).notes = none)) := by
  cases pipeline with
  | ok p =>
    refine ⟨fun e he => Except.noConfusion he, fun f ns hfn => ?_,
      Or.inl ⟨rfl, rfl, rfl, rfl, rfl⟩⟩
    injection hfn with hp
    rw [hp]
    rfl
  | error e =>
    refine ⟨fun e' he' => ?_, fun f ns hfn => Except.noConfusion hfn,
      Or.inr ⟨rfl, rfl, rfl, rfl, rfl⟩⟩
    injection he' with hp
    rw [hp]
    rfl

/-- C9 witness: the boundary theorem at a concrete failed pipeline. -/
theorem c9_witness :
    generate_music_route (Except.error "boom") =
      ⟨500, false, some "boom", none, none⟩ :=
  (c9_error_handling (Except.error "boom")).1 "boom" rfl

/-- Function `generate_full_composition` (quantum_music.py lines 308–338):
`num_notes = num_measures * 8`, generate the melody with base `{key}4` and the
major scale, generate the rhythm gate of the same length, then mask the first
`num_notes` events with the first `num_notes` gate slots. -/
def generate_full_composition (h : List Char → Nat)
    (counts : List (List Char × Nat)) (rnd : Nat → Nat) (draws : Nat → Bool)
    (fidx : Nat) (num_measures : Nat) (baseMidi : Nat) : Option (List NoteEvent) :=
  let num_notes := num_measures * 8
  match generate_melody h counts rnd num_notes baseMidi "major" with
  | none => none
  | some melody =>
    match generate_rhythm draws fidx num_notes with
    | none => none
    | some rhythm =>
      some (applyRhythm (melody.take num_notes) (rhythm.take num_notes))

/-- Serialization of one event into a notes-array entry (app.py 90–113). -/
def eventInfo : NoteEvent → NoteInfo
  | NoteEvent.note p d => ⟨midiName p, d⟩
  | NoteEvent.rest d => ⟨"Rest", d⟩

/-- The notes-array assembly (app.py lines 88–113): the first `num_notes`
elements when the stream has at least that many, otherwise all of them. -/
def notesInfo (evs : List NoteEvent) (num_notes : Nat) : List NoteInfo :=
  (if num_notes ≤ evs.length then evs.take num_notes else evs).map eventInfo

/-- The `type == 'full'` branch of the handler (app.py lines 42–48 plus the
shared tail 72–134): `num_measures = num_notes // 8`, and the composition
outcome is converted by the single `try`/`except` boundary. -/
def handle_full (h : List Char → Nat) (counts : List (List Char × Nat))
    (rnd : Nat → Nat) (draws : Nat → Bool) (fidx : Nat) (fileName : String)
    (baseMidi : Nat) (num_notes : Nat) : ApiResponse :=
  match generate_full_composition h counts rnd draws fidx (num_notes / 8) baseMidi with
  | some evs => generate_music_route (Except.ok (fileName, notesInfo evs num_notes))
  | none =>
    generate_music_route (Except.error "ValueError: empty range for randrange()")

theorem generate_rhythm_zero (draws : Nat → Bool) (fidx : Nat) :
    generate_rhythm draws fidx 0 = none :=
  rfl

theorem notesInfo_length (evs : List NoteEvent) (n : Nat) (hle : evs.length ≤ n) :
    (notesInfo evs n).length = evs.length := by
  unfold notesInfo
  by_cases hc : n ≤ evs.length
  · rw [if_pos hc, List.length_map, List.length_take]
    omega
  · rw [if_neg hc, List.length_map]

/-- C10 (counterexample): a `type="full"` request with `num_notes = 4` does
not produce a success response with an empty notes list — the melody is empty
(`num_measures = 0`), `generate_rhythm(0)` raises `ValueError` on
`random.randrange(0)`, and the handler returns the 500 failure response. -/
theorem c10_cex :
    (handle_full (fun _ => 0) [] (fun _ => 0) (fun _ => false) 0 "f" 60 4).success
        = false ∧
    (handle_full (fun _ => 0) [] (fun _ => 0) (fun _ => false) 0 "f" 60 4).notes
        = none := by
  decide

/-- C10 (amended): for a `type="full"` request the handler computes
`num_measures = num_notes // 8`; when `num_notes ≥ 8` the composition contains
exactly `8 * (num_notes // 8)` note events rather than `num_notes`, and the
success notes list has that many entries; when `num_notes < 8`
(`num_measures = 0`) the pipeline raises in `generate_rhythm`
(`randrange` on an empty range) and the handler returns the 500 failure
response instead of a success with an empty notes list. -/
theorem c10_full_request (h : List Char → Nat) (counts : List (List Char × Nat))
    (rnd : Nat → Nat) (draws : Nat → Bool) (fidx : Nat) (fileName : String)
    (baseMidi : Nat) (n : Nat) :
    (8 ≤ n → ∃ evs,
      generate_full_composition h counts rnd draws fidx (n / 8) baseMidi = some evs ∧
      evs.length = 8 * (n / 8) ∧
      handle_full h counts rnd draws fidx fileName baseMidi n =
        generate_music_route (Except.ok (fileName, notesInfo evs n)) ∧
      (notesInfo evs n).length = 8 * (n / 8)) ∧
    (n < 8 → handle_full h counts rnd draws fidx fileName baseMidi n =
      generate_music_route (Except.error "ValueError: empty range for randrange()")) := by
  constructor
  · intro hn
    obtain ⟨mel, hmel, hmlen⟩ :=
      generate_melody_total h counts rnd (n / 8 * 8) baseMidi "major"
    have hpos : 1 ≤ n / 8 * 8 := by
      have h1 : 1 ≤ n / 8 := (Nat.one_le_div_iff (by omega)).mpr hn
      omega
    obtain ⟨r, hr, hrlen, _⟩ := generate_rhythm_total draws fidx (n / 8 * 8) hpos
    have hcomp : generate_full_composition h counts rnd draws fidx (n / 8) baseMidi =
        some (applyRhythm (mel.take (n / 8 * 8)) (r.take (n / 8 * 8))) := by
      unfold generate_full_composition
      simp only [hmel, hr]
    have hlen : (applyRhythm (mel.take (n / 8 * 8)) (r.take (n / 8 * 8))).length =
        8 * (n / 8) := by
      simp only [applyRhythm, List.length_map, List.length_zip, List.length_take,
        hmlen, hrlen]
      omega
    refine ⟨_, hcomp, hlen, ?_, ?_⟩
    · unfold handle_full
      rw [hcomp]
    · rw [notesInfo_length _ n (by rw [hlen]; omega), hlen]
  · intro hn
    have h0 : n / 8 = 0 := Nat.div_eq_of_lt hn
    obtain ⟨mel, hmel, _⟩ := generate_melody_total h counts rnd (0 * 8) baseMidi "major"
    unfold handle_full generate_full_composition
    rw [h0]
    simp only [hmel, Nat.zero_mul, generate_rhythm_zero]

/-- C10 witness: the amended theorem's `num_notes ≥ 8` branch at
`num_notes = 20` (composition and notes list of 16 events, not 20) and its
`num_notes < 8` branch at `num_notes = 4` (failure response), with concrete
streams and a one-token counts mapping. -/
theorem c10_witness :
    (∃ evs, generate_full_composition (fun _ => 0) [(['0'], 3)] (fun _ => 0)
        (fun _ => true) 0 (20 / 8) 60 = some evs ∧
      evs.length = 8 * (20 / 8) ∧
      handle_full (fun _ => 0) [(['0'], 3)] (fun _ => 0) (fun _ => true) 0 "f" 60 20 =
        generate_music_route (Except.ok ("f", notesInfo evs 20)) ∧
      (notesInfo evs 20).length = 8 * (20 / 8)) ∧
    handle_full (fun _ => 0) [(['0'], 3)] (fun _ => 0) (fun _ => true) 0 "f" 60 4 =
      generate_music_route (Except.error "ValueError: empty range for randrange()") :=
  ⟨(c10_full_request (fun _ => 0) [(['0'], 3)] (fun _ => 0) (fun _ => true) 0 "f"
      60 20).1 (by decide),
    (c10_full_request (fun _ => 0) [(['0'], 3)] (fun _ => 0) (fun _ => true) 0 "f"
      60 4).2 (by decide)⟩

end QSound
